import Mathlib

/-!
Verification of the zmoomoo.io server security core, shallowly embedded from
`src/server/src/security/{rateLimiter.js, sessionStore.js, antiCheat/{actions,movement}.js}`.

Modelling conventions:
* JS numbers that participate only in integer arithmetic are `Int` (timestamps)
  or `Nat` (counters); token-bucket levels, resource amounts and severities,
  which are genuinely fractional, are `ℚ`; movement coordinates, which flow
  through `Math.sqrt`, are `ℝ` inside `Prop`-level definitions.
* JS `Map` objects are association lists (`List (String × α)`), JS `Set`
  objects are duplicate-free `List String`; `mapSet`/`mapDelete`/`mapGet`
  mirror `Map.set`/`Map.delete`/`Map.get`, `setAdd`/`setDelete` mirror
  `Set.add`/`Set.delete`.
* Methods that mutate `this` become functions `State → args → Result × State`.
* JS strings are modelled as `List Char` where character-level editing is
  involved (`sanitizeString`), and as `String` where they are opaque keys.
-/

/-! ### rateLimiter.js : constants -/

def DEFAULT_BUCKET_SIZE : ℚ := 60
def DEFAULT_REFILL_RATE : ℚ := 30
def VIOLATION_DECAY_TIME : Int := 30000
def FREEZE_DURATION : Int := 5000
def BAN_DURATION : Int := 300000

/-- `ESCALATION_THRESHOLDS` of rateLimiter.js. -/
def THRESHOLD_WARNING : Nat := 5
def THRESHOLD_FREEZE : Nat := 15
def THRESHOLD_DISCONNECT : Nat := 30
def THRESHOLD_BAN : Nat := 50

/-- `ESCALATION_LEVELS` of rateLimiter.js. -/
def LEVEL_NONE : Nat := 0
def LEVEL_WARNING : Nat := 1
def LEVEL_FREEZE : Nat := 2
def LEVEL_DISCONNECT : Nat := 3
def LEVEL_BAN : Nat := 4

/-! ### rateLimiter.js : TokenBucket

`maxTokens`, `tokens` and `refillRate` are JS floats, `lastRefill` a
millisecond timestamp; all are modelled exactly over `ℚ`. -/

structure TokenBucket where
  maxTokens : ℚ
  tokens : ℚ
  refillRate : ℚ
  lastRefill : ℚ
  deriving Repr, DecidableEq

/-- `new TokenBucket(maxTokens, refillRate)` constructed at time `now`. -/
def TokenBucket.init (maxTokens refillRate now : ℚ) : TokenBucket :=
  { maxTokens := maxTokens, tokens := maxTokens, refillRate := refillRate, lastRefill := now }

/-- `TokenBucket.refill()` at current time `now`:
`tokens = min(maxTokens, tokens + (now - lastRefill)/1000 * refillRate); lastRefill = now`. -/
def TokenBucket.refill (b : TokenBucket) (now : ℚ) : TokenBucket :=
  { b with
    tokens := min b.maxTokens (b.tokens + (now - b.lastRefill) / 1000 * b.refillRate),
    lastRefill := now }

/-- `TokenBucket.consume(amount)` at current time `now`; returns the updated
bucket and the JS boolean return value. -/
def TokenBucket.consume (b : TokenBucket) (amount now : ℚ) : TokenBucket × Bool :=
  let b' := b.refill now
  if amount ≤ b'.tokens then ({ b' with tokens := b'.tokens - amount }, true)
  else (b', false)

/-- `TokenBucket.getTokens()` at current time `now`; returns the updated bucket
and the JS return value. -/
def TokenBucket.getTokens (b : TokenBucket) (now : ℚ) : TokenBucket × ℚ :=
  let b' := b.refill now
  (b', b'.tokens)

/-- One call of a `consume`/`getTokens` sequence against a bucket. -/
inductive BucketOp where
  | consume (amount : ℚ)
  | getTokens
  deriving Repr, DecidableEq

/-- Run one timed call, keeping only the bucket state. -/
def runBucketOp (b : TokenBucket) (t : ℚ) (op : BucketOp) : TokenBucket :=
  match op with
  | .consume a => (b.consume a t).1
  | .getTokens => (b.getTokens t).1

/-- Run a timed call sequence left to right. -/
def runBucketOps (b : TokenBucket) (ops : List (ℚ × BucketOp)) : TokenBucket :=
  ops.foldl (fun b p => runBucketOp b p.1 p.2) b

/-- The claimed bucket invariant: the level stays in `[0, capacity]`. -/
def BucketInv (b : TokenBucket) : Prop :=
  0 ≤ b.tokens ∧ b.tokens ≤ b.maxTokens

/-- Timestamps non-decreasing from the bucket's `lastRefill`, with every
consumed amount non-negative (the server only ever calls `consume(1)`). -/
def validBucketOps (t0 : ℚ) : List (ℚ × BucketOp) → Prop
  | [] => True
  | (t, op) :: rest =>
      t0 ≤ t ∧ (match op with | .consume a => 0 ≤ a | .getTokens => True) ∧
      validBucketOps t rest

/-! ### rateLimiter.js : PlayerRateLimitState

`violations` is a JS number kept a non-negative integer by
`Math.max(0, violations - 1)`, so it is modelled as `Nat` with truncated
subtraction; `escalationLevel` holds one of the `ESCALATION_LEVELS` values. -/

structure RLState where
  violations : Nat
  lastViolation : Int
  escalationLevel : Nat
  freezeUntil : Int
  bannedUntil : Int
  createdAt : Int
  lastActivity : Int
  deriving Repr, DecidableEq

/-- `new PlayerRateLimitState(...)` at time `now` (`Date.now()`). -/
def RLState.init (now : Int) : RLState :=
  { violations := 0, lastViolation := 0, escalationLevel := LEVEL_NONE,
    freezeUntil := 0, bannedUntil := 0, createdAt := now, lastActivity := now }

/-- `PlayerRateLimitState.addViolation()` at time `now`: decay-once-if-stale,
then increment, then recompute the escalation level from the thresholds
(the returned value of the JS method is the new `escalationLevel` field). -/
def RLState.addViolation (st : RLState) (now : Int) : RLState :=
  let v0 := if now - st.lastViolation > VIOLATION_DECAY_TIME then st.violations - 1
            else st.violations
  let v := v0 + 1
  let st' := { st with violations := v, lastViolation := now }
  if THRESHOLD_BAN ≤ v then
    { st' with escalationLevel := LEVEL_BAN, bannedUntil := now + BAN_DURATION }
  else if THRESHOLD_DISCONNECT ≤ v then
    { st' with escalationLevel := LEVEL_DISCONNECT }
  else if THRESHOLD_FREEZE ≤ v then
    { st' with escalationLevel := LEVEL_FREEZE, freezeUntil := now + FREEZE_DURATION }
  else if THRESHOLD_WARNING ≤ v then
    { st' with escalationLevel := LEVEL_WARNING }
  else st'

/-- `PlayerRateLimitState.decayViolations()` at time `now`. -/
def RLState.decayViolations (st : RLState) (now : Int) : RLState :=
  if now - st.lastViolation > VIOLATION_DECAY_TIME * 2 then
    let v := st.violations - 1
    let st' := { st with violations := v, lastViolation := now }
    if v < THRESHOLD_WARNING then { st' with escalationLevel := LEVEL_NONE }
    else if v < THRESHOLD_FREEZE then { st' with escalationLevel := LEVEL_WARNING }
    else st'
  else st

/-- The escalation level that the `addViolation` threshold cascade assigns to a
cumulative violation count (`NONE` below `WARNING` for a state that started at
`NONE`). -/
def levelOf (v : Nat) : Nat :=
  if THRESHOLD_BAN ≤ v then LEVEL_BAN
  else if THRESHOLD_DISCONNECT ≤ v then LEVEL_DISCONNECT
  else if THRESHOLD_FREEZE ≤ v then LEVEL_FREEZE
  else if THRESHOLD_WARNING ≤ v then LEVEL_WARNING
  else LEVEL_NONE

/-- Fold `addViolation` over a list of violation timestamps. -/
def runAddViolations (st : RLState) (ts : List Int) : RLState :=
  ts.foldl RLState.addViolation st

/-- "No decay gaps": each timestamp is within `VIOLATION_DECAY_TIME` of the
previous one, so the decay-once-if-stale prelude of `addViolation` never fires
inside the sequence. -/
def noDecayGaps : List Int → Bool
  | t1 :: t2 :: rest =>
      if t2 - t1 ≤ VIOLATION_DECAY_TIME then noDecayGaps (t2 :: rest) else false
  | _ => true

/-! ### sessionStore.js (validator half) : sanitizeString

`sanitizeString(str, maxLength)` does
`str.slice(0, maxLength).replace(/[<>\"'&]/g, '').replace(/[\x00-\x1F\x7F]/g, '').trim()`.
A JS string is modelled as a `List Char`; `replace(re, '')` deletes every
matching character, i.e. keeps the non-matching ones. -/

/-- The HTML-significant characters stripped by the first `replace`:
`<`, `>`, double quote, single quote, `&` (the two quote characters are
written by code point to keep the source readable). -/
def isHtmlChar (c : Char) : Bool :=
  c = '<' || c = '>' || c = Char.ofNat 34 || c = Char.ofNat 39 || c = '&'

/-- The control characters stripped by the second `replace`: 0x00–0x1F, 0x7F. -/
def isCtrlChar (c : Char) : Bool :=
  c.toNat ≤ 0x1F || c.toNat = 0x7F

/-- The character class removed by JS `String.prototype.trim`:
WhiteSpace (tab, VT, FF, space, NBSP, BOM, Zs) and LineTerminator
(LF, CR, LS, PS). -/
def isJsWhitespace (c : Char) : Bool :=
  c.toNat = 0x9 || c.toNat = 0xA || c.toNat = 0xB || c.toNat = 0xC ||
  c.toNat = 0xD || c.toNat = 0x20 || c.toNat = 0xA0 || c.toNat = 0x1680 ||
  (0x2000 ≤ c.toNat && c.toNat ≤ 0x200A) || c.toNat = 0x2028 ||
  c.toNat = 0x2029 || c.toNat = 0x202F || c.toNat = 0x205F ||
  c.toNat = 0x3000 || c.toNat = 0xFEFF

/-- JS `str.trim()`: drop leading and trailing whitespace. -/
def jsTrim (l : List Char) : List Char :=
  ((l.dropWhile isJsWhitespace).reverse.dropWhile isJsWhitespace).reverse

/-- `sanitizeString(str, maxLength)` on an input that is a string (the
`typeof str !== 'string'` null-return guard is outside this model). -/
def sanitizeString (l : List Char) (maxLength : Nat) : List Char :=
  jsTrim (((l.take maxLength).filter (fun c => !isHtmlChar c)).filter
    (fun c => !isCtrlChar c))

/-! ### sessionStore.js (validator half) : PacketValidator.validatePacket -/

/-- The values of the `OPCODES` table (= keys of `schemas`); `VALID_OPCODES`
is the set of these. -/
def VALID_OPCODES : List String :=
  ["M", "9", "F", "K", "D", "z", "c", "H", "6", "0", "p", "L", "N", "b", "P",
   "S", "e", "TP", "AUTH", "REGISTER", "CREATE_PARTY", "JOIN_PARTY"]

/-- `PacketValidator.isValidOpcode`. -/
def isValidOpcode (opcode : String) : Bool :=
  VALID_OPCODES.contains opcode

/-- The `{valid, sanitizedData?, reason?}` result shape of `validatePacket`,
with the payload type abstract. -/
structure VResult (α : Type) where
  valid : Bool
  reason : Option String
  sanitizedData : Option α
  deriving Repr, DecidableEq

/-- `PacketValidator.validatePacket(opcode, data, context)`.

The evaluation of `schema.validate(data, context)` inside the `try` block is
represented by `run : Except String (VResult α)`: `Except.ok r` is a normal
return of `r`, `Except.error e` is a thrown JS exception whose `.message` is
`e`.  Every key of `OPCODES` has a schema, so the `if (!schema)` fallback of
the source is unreachable for valid opcodes and the lookup is not re-modelled;
statistics counters and `logValidationFailure` are side effects without result
relevance and are omitted. -/
def validatePacket (opcode : String) (run : Except String (VResult α)) :
    VResult α :=
  if !isValidOpcode opcode then
    { valid := false, reason := some "Unknown opcode", sanitizedData := none }
  else
    match run with
    | .ok result => result
    | .error e =>
        { valid := false, reason := some ("Validation error: " ++ e),
          sanitizedData := none }

/-! ### antiCheat/actions.js : ActionValidator.validateResourceSpending -/

def RESOURCE_SYNC_TOLERANCE : ℚ := 10

/-- One entry of the `violations` array of a validation result (the `evidence`
fields relevant to resource spending). -/
structure ActionViolation where
  type : String
  severity : ℚ
  attemptedSpend : ℚ
  currentAmount : ℚ
  deficit : ℚ
  deriving Repr, DecidableEq

/-- The `{valid, violations, suspicionScore}` result record. -/
structure ActionResult where
  valid : Bool
  violations : List ActionViolation
  suspicionScore : ℚ
  deriving Repr, DecidableEq

/-- `ActionValidator.validateResourceSpending(player, resourceType, amount)`.
`currentAmount` is `player[resourceType] || 0`; the per-player
`invalidActionCount`/`recordViolation` bookkeeping does not affect the
returned record and is omitted. -/
def validateResourceSpending (currentAmount amount : ℚ) : ActionResult :=
  if amount > currentAmount + RESOURCE_SYNC_TOLERANCE then
    { valid := false,
      suspicionScore := 30,
      violations := [{ type := "RESOURCE_SPENDING_VIOLATION",
                       severity := min 1 ((amount - currentAmount) / 100),
                       attemptedSpend := amount,
                       currentAmount := currentAmount,
                       deficit := amount - currentAmount }] }
  else
    { valid := true, violations := [], suspicionScore := 0 }

/-! ### antiCheat/movement.js : teleport detection in validateMovement -/

def TELEPORT_THRESHOLD_MULTIPLIER : ℝ := 15

/-- The player flags read by `validateMovement`/`checkValidTeleport`. -/
structure MovePlayer where
  noclipMode : Bool
  ghostMode : Bool
  isAdmin : Bool
  teleportClickMode : Bool
  deriving Repr, DecidableEq

/-- `MovementValidator.checkValidTeleport(player, distance)`: true on
`teleportClickMode` or `isAdmin`; the source's two remaining branches
(`distance > mapScale * 0.8` and its complement) both return `false`, so the
distance argument does not influence the result. -/
def checkValidTeleport (p : MovePlayer) : Prop :=
  p.teleportClickMode = true ∨ p.isAdmin = true

/-- The `noclipMode || ghostMode || isAdmin` early return of
`validateMovement` that bypasses all movement checks. -/
def movementBypass (p : MovePlayer) : Prop :=
  p.noclipMode = true ∨ p.ghostMode = true ∨ p.isAdmin = true

/-- `validateMovement` pushes a `TELEPORTATION` violation iff the bypass did
not fire, `calculateDistance(last, new) > playerScale * 15`, and
`checkValidTeleport` found no valid reason.  `calculateDistance` is
`Math.sqrt((newX-lastX)^2 + (newY-lastY)^2)`, written here with `Real.sqrt`
(the prior `!data.lastPosition` early return is represented by taking the
recorded last position as an argument). -/
def teleportViolationFires (p : MovePlayer)
    (lastX lastY newX newY playerScale : ℝ) : Prop :=
  ¬ movementBypass p ∧
  Real.sqrt ((newX - lastX) ^ 2 + (newY - lastY) ^ 2) >
    playerScale * TELEPORT_THRESHOLD_MULTIPLIER ∧
  ¬ checkValidTeleport p

/-! ### sessionStore.js (store half) : SessionStore

`sessions : Map token→session` and `userSessionMap : Map userId→Set token`
become association lists; `userWebSocketMap` plays no role in the verified
operations and is omitted.  `crypto.randomUUID()` is nondeterministic, so
`createSession` takes the generated token as an argument. -/

/-- A stored session object. -/
structure Session where
  token : String
  userId : String
  createdAt : Int
  lastActivity : Int
  expiresAt : Int
  deriving Repr, DecidableEq

/-- `Map.prototype.get` on an association list. -/
def mapGet {α : Type} : List (String × α) → String → Option α
  | [], _ => none
  | (k, v) :: rest, key => if k = key then some v else mapGet rest key

/-- `Map.prototype.set`: replace the entry if the key is present, else append. -/
def mapSet {α : Type} : List (String × α) → String → α → List (String × α)
  | [], key, v => [(key, v)]
  | (k, w) :: rest, key, v =>
      if k = key then (key, v) :: rest else (k, w) :: mapSet rest key v

/-- `Map.prototype.delete`: remove the entry with the key, if any. -/
def mapDelete {α : Type} : List (String × α) → String → List (String × α)
  | [], _ => []
  | (k, w) :: rest, key => if k = key then rest else (k, w) :: mapDelete rest key

/-- `Set.prototype.add` on a duplicate-free list (insertion order kept). -/
def setAdd (s : List String) (x : String) : List String :=
  if x ∈ s then s else s ++ [x]

/-- `Set.prototype.delete`: remove the element.  A JS `Set` holds each element
once; removing every occurrence makes the model independent of duplicates. -/
def setDelete (s : List String) (x : String) : List String :=
  s.filter (fun y => y ≠ x)

structure SessionStore where
  sessions : List (String × Session)
  idleTimeout : Int
  absoluteTimeout : Int
  userSessionMap : List (String × List String)
  deriving Repr, DecidableEq

/-- `new SessionStore()` with the default timeouts (30 min idle, 24 h
absolute). -/
def SessionStore.empty : SessionStore :=
  { sessions := [], idleTimeout := 30 * 60 * 1000,
    absoluteTimeout := 24 * 60 * 60 * 1000, userSessionMap := [] }

/-- The shared tail of `invalidateSession` and of the cleanup loop:
`if (userSessionMap.has(userId)) { userSessionMap.get(userId).delete(token);
if (size === 0) userSessionMap.delete(userId) }`. -/
def removeTokenFromUser (m : List (String × List String)) (userId token : String) :
    List (String × List String) :=
  match mapGet m userId with
  | none => m
  | some ts =>
      let ts' := setDelete ts token
      if ts' = [] then mapDelete m userId else mapSet m userId ts'

structure CreateResult where
  success : Bool
  token : Option String
  expiresAt : Option Int
  deriving Repr, DecidableEq

/-- `SessionStore.createSession(userId)` at time `now`, with the freshly
generated `crypto.randomUUID()` value passed in as `token` (`!userId` is the
JS falsy test, which for the string-typed id means the empty string). -/
def SessionStore.createSession (store : SessionStore) (userId token : String)
    (now : Int) : CreateResult × SessionStore :=
  if userId = "" then
    ({ success := false, token := none, expiresAt := none }, store)
  else
    let session : Session :=
      { token := token, userId := userId, createdAt := now, lastActivity := now,
        expiresAt := now + store.absoluteTimeout }
    let sessions' := mapSet store.sessions token session
    let userMap' :=
      match mapGet store.userSessionMap userId with
      | none => mapSet store.userSessionMap userId (setAdd [] token)
      | some ts => mapSet store.userSessionMap userId (setAdd ts token)
    ({ success := true, token := some token, expiresAt := some session.expiresAt },
     { store with sessions := sessions', userSessionMap := userMap' })

structure InvalidateResult where
  success : Bool
  error : Option String
  deriving Repr, DecidableEq

/-- `SessionStore.invalidateSession(token)`. -/
def SessionStore.invalidateSession (store : SessionStore) (token : String) :
    InvalidateResult × SessionStore :=
  if token = "" then
    ({ success := false, error := some "No token provided" }, store)
  else
    match mapGet store.sessions token with
    | none => ({ success := false, error := some "Session not found" }, store)
    | some session =>
        ({ success := true, error := none },
         { store with
           sessions := mapDelete store.sessions token,
           userSessionMap :=
             removeTokenFromUser store.userSessionMap session.userId token })

/-- A validation result; `session` carries the snapshot
`{userId, createdAt, lastActivity, expiresAt}` returned on success. -/
structure ValidateResult where
  valid : Bool
  reason : Option String
  session : Option Session
  deriving Repr, DecidableEq

/-- `SessionStore.validateSession(token)` at time `now`.  The expired branches
call `this.invalidateSession(token)` before reporting invalid (the returned
snapshot reuses `Session` with the `token` field repeated). -/
def SessionStore.validateSession (store : SessionStore) (token : String)
    (now : Int) : ValidateResult × SessionStore :=
  if token = "" then
    ({ valid := false, reason := some "No token provided", session := none }, store)
  else
    match mapGet store.sessions token with
    | none =>
        ({ valid := false, reason := some "Session not found", session := none }, store)
    | some session =>
        if now > session.expiresAt then
          ({ valid := false, reason := some "Session expired (absolute timeout)",
             session := none },
           (store.invalidateSession token).2)
        else if now - session.lastActivity > store.idleTimeout then
          ({ valid := false, reason := some "Session expired (idle timeout)",
             session := none },
           (store.invalidateSession token).2)
        else
          ({ valid := true, reason := none, session := some session }, store)

structure RefreshResult where
  success : Bool
  error : Option String
  deriving Repr, DecidableEq

/-- `SessionStore.refreshSession(token)` at time `now`: re-checks both expiry
conditions, and only then sets `session.lastActivity = now`. -/
def SessionStore.refreshSession (store : SessionStore) (token : String)
    (now : Int) : RefreshResult × SessionStore :=
  if token = "" then
    ({ success := false, error := some "No token provided" }, store)
  else
    match mapGet store.sessions token with
    | none => ({ success := false, error := some "Session not found" }, store)
    | some session =>
        if now > session.expiresAt then
          ({ success := false, error := some "Session expired (absolute timeout)" },
           (store.invalidateSession token).2)
        else if now - session.lastActivity > store.idleTimeout then
          ({ success := false, error := some "Session expired (idle timeout)" },
           (store.invalidateSession token).2)
        else
          ({ success := true, error := none },
           { store with
             sessions := mapSet store.sessions token
               { session with lastActivity := now } })

structure InvalidateUserResult where
  success : Bool
  count : Nat
  deriving Repr, DecidableEq

/-- `SessionStore.invalidateUserSessions(userId)`: delete every token of the
user from `sessions`, then drop the user's entry. -/
def SessionStore.invalidateUserSessions (store : SessionStore) (userId : String) :
    InvalidateUserResult × SessionStore :=
  if userId = "" then
    ({ success := false, count := 0 }, store)
  else
    match mapGet store.userSessionMap userId with
    | none => ({ success := true, count := 0 }, store)
    | some ts =>
        if ts = [] then ({ success := true, count := 0 }, store)
        else
          ({ success := true, count := ts.length },
           { store with
             sessions := ts.foldl (fun m t => mapDelete m t) store.sessions,
             userSessionMap := mapDelete store.userSessionMap userId })

/-- The expiry predicate of `cleanupExpiredSessions`. -/
def sessionExpired (store : SessionStore) (now : Int) (s : Session) : Bool :=
  now > s.expiresAt || now - s.lastActivity > store.idleTimeout

structure CleanupResult where
  success : Bool
  cleanedCount : Nat
  remainingSessions : Nat
  deriving Repr, DecidableEq

/-- One iteration of the deletion loop of `cleanupExpiredSessions`, for a
collected `{token, userId}` pair. -/
def cleanupStep (store : SessionStore) (p : String × String) : SessionStore :=
  { store with
    sessions := mapDelete store.sessions p.1,
    userSessionMap := removeTokenFromUser store.userSessionMap p.2 p.1 }

/-- `SessionStore.cleanupExpiredSessions()` at time `now`: first collect the
expired `{token, userId}` pairs, then delete each. -/
def SessionStore.cleanupExpiredSessions (store : SessionStore) (now : Int) :
    CleanupResult × SessionStore :=
  let expired := (store.sessions.filter fun p => sessionExpired store now p.2).map
    fun p => (p.1, p.2.userId)
  let store' := expired.foldl cleanupStep store
  ({ success := true, cleanedCount := expired.length,
     remainingSessions := store'.sessions.length }, store')

/-- The keys of an association list are pairwise distinct (true of every JS
`Map`). -/
def nodupKeys {α : Type} (m : List (String × α)) : Prop :=
  (m.map Prod.fst).Nodup

/-- The bidirectional-consistency invariant of the two maps:
every token listed under a user resolves to a session with that `userId`,
every stored session's token is listed under its user, no user entry holds an
empty token set, and both maps have distinct keys. -/
def StoreInv (store : SessionStore) : Prop :=
  nodupKeys store.sessions ∧ nodupKeys store.userSessionMap ∧
  (∀ u ts, mapGet store.userSessionMap u = some ts →
    ∀ t ∈ ts, ∃ s, mapGet store.sessions t = some s ∧ s.userId = u) ∧
  (∀ t s, mapGet store.sessions t = some s →
    ∃ ts, mapGet store.userSessionMap s.userId = some ts ∧ t ∈ ts) ∧
  (∀ u ts, mapGet store.userSessionMap u = some ts → ts ≠ [])

/-! ## Lemmas: TokenBucket -/

theorem refill_lastRefill (b : TokenBucket) (now : ℚ) :
    (b.refill now).lastRefill = now := rfl

theorem refill_refillRate (b : TokenBucket) (now : ℚ) :
    (b.refill now).refillRate = b.refillRate := rfl

theorem refill_inv (b : TokenBucket) (now : ℚ) (hr : 0 ≤ b.refillRate)
    (hb : BucketInv b) (ht : b.lastRefill ≤ now) : BucketInv (b.refill now) := by
  obtain ⟨h0, h1⟩ := hb
  have hx : 0 ≤ (now - b.lastRefill) / 1000 * b.refillRate :=
    mul_nonneg (div_nonneg (sub_nonneg.mpr ht) (by norm_num)) hr
  constructor
  · exact le_min (le_trans h0 h1) (by linarith)
  · exact min_le_left _ _

theorem consume_inv (b : TokenBucket) (amount now : ℚ) (hr : 0 ≤ b.refillRate)
    (hb : BucketInv b) (ht : b.lastRefill ≤ now) (ha : 0 ≤ amount) :
    BucketInv (b.consume amount now).1 := by
  have h := refill_inv b now hr hb ht
  obtain ⟨h0, h1⟩ := h
  by_cases hc : amount ≤ (b.refill now).tokens
  · simp only [TokenBucket.consume, if_pos hc]
    exact ⟨by simp; linarith, by simp; linarith⟩
  · simp only [TokenBucket.consume, if_neg hc]
    exact ⟨h0, h1⟩

theorem runBucketOp_inv (b : TokenBucket) (t : ℚ) (op : BucketOp)
    (hr : 0 ≤ b.refillRate) (hb : BucketInv b) (ht : b.lastRefill ≤ t)
    (ha : match op with | .consume a => 0 ≤ a | .getTokens => True) :
    BucketInv (runBucketOp b t op) := by
  cases op with
  | consume a => exact consume_inv b a t hr hb ht ha
  | getTokens => exact refill_inv b t hr hb ht

theorem runBucketOp_lastRefill (b : TokenBucket) (t : ℚ) (op : BucketOp) :
    (runBucketOp b t op).lastRefill = t := by
  cases op with
  | consume a =>
      by_cases hc : a ≤ (b.refill t).tokens
      · simp only [runBucketOp, TokenBucket.consume, if_pos hc]; rfl
      · simp only [runBucketOp, TokenBucket.consume, if_neg hc]; rfl
  | getTokens => rfl

theorem runBucketOp_refillRate (b : TokenBucket) (t : ℚ) (op : BucketOp) :
    (runBucketOp b t op).refillRate = b.refillRate := by
  cases op with
  | consume a =>
      by_cases hc : a ≤ (b.refill t).tokens
      · simp only [runBucketOp, TokenBucket.consume, if_pos hc]; rfl
      · simp only [runBucketOp, TokenBucket.consume, if_neg hc]; rfl
  | getTokens => rfl

theorem runBucketOps_inv (ops : List (ℚ × BucketOp)) :
    ∀ b : TokenBucket, 0 ≤ b.refillRate → BucketInv b →
      validBucketOps b.lastRefill ops → BucketInv (runBucketOps b ops) := by
  induction ops with
  | nil => intro b _ hb _; simpa [runBucketOps] using hb
  | cons p rest ih =>
      obtain ⟨t, op⟩ := p
      intro b hr hb hv
      obtain ⟨ht, hop, hrest⟩ := hv
      have hstep : BucketInv (runBucketOp b t op) := runBucketOp_inv b t op hr hb ht hop
      have hrate : 0 ≤ (runBucketOp b t op).refillRate := by
        rw [runBucketOp_refillRate]; exact hr
      have hlast : validBucketOps (runBucketOp b t op).lastRefill rest := by
        rw [runBucketOp_lastRefill]; exact hrest
      have := ih (runBucketOp b t op) hrate hstep hlast
      simpa [runBucketOps] using this

/-- C1: for every `TokenBucket` and every sequence of `consume`/`getTokens`
calls at non-decreasing timestamps (and non-negative amounts, as in the
server's `consume(1)` calls), the token level stays in `[0, capacity]`; each
call first applies the lazy refill
`tokens = min(capacity, tokens + elapsedSeconds * refillRate)` and updates
`lastRefill`, and `consume(n)` subtracts `n` and returns `true` exactly when
the refilled level is at least `n`, returning `false` and leaving the refilled
level unchanged otherwise. -/
theorem tokenBucket_spec (b : TokenBucket) (hr : 0 ≤ b.refillRate)
    (hb : BucketInv b) :
    (∀ ops, validBucketOps b.lastRefill ops → BucketInv (runBucketOps b ops)) ∧
    (∀ amount now,
      ((b.consume amount now).2 = true ↔ amount ≤ (b.refill now).tokens) ∧
      ((b.consume amount now).2 = true →
        (b.consume amount now).1 =
          { b.refill now with tokens := (b.refill now).tokens - amount }) ∧
      ((b.consume amount now).2 = false → (b.consume amount now).1 = b.refill now) ∧
      (b.refill now).tokens =
        min b.maxTokens (b.tokens + (now - b.lastRefill) / 1000 * b.refillRate) ∧
      (b.refill now).lastRefill = now) := by
  constructor
  · intro ops hops
    exact runBucketOps_inv ops b hr hb hops
  · intro amount now
    by_cases hc : amount ≤ (b.refill now).tokens
    · refine ⟨by simp [TokenBucket.consume, hc], ?_, ?_, rfl, rfl⟩
      · intro _; simp [TokenBucket.consume, hc]
      · intro hfalse; simp [TokenBucket.consume, hc] at hfalse
    · refine ⟨by simp [TokenBucket.consume, hc], ?_, ?_, rfl, rfl⟩
      · intro htrue; simp [TokenBucket.consume, hc] at htrue
      · intro _; simp [TokenBucket.consume, hc]

/-- Witness for `tokenBucket_spec` at the movement bucket
`TokenBucket(60, 30)` created at time 0, consuming 1 token at time 1000. -/
theorem tokenBucket_spec_witness :
    BucketInv (runBucketOps (TokenBucket.init 60 30 0)
      [((1000 : ℚ), BucketOp.consume 1)]) ∧
    ((TokenBucket.init 60 30 0).consume 1 1000).2 = true := by
  have h := tokenBucket_spec (TokenBucket.init 60 30 0)
    (by norm_num [TokenBucket.init])
    (by constructor <;> norm_num [TokenBucket.init])
  refine ⟨h.1 _ ?_, ?_⟩
  · refine ⟨by norm_num [TokenBucket.init], by norm_num, trivial⟩
  · refine ((h.2 1 1000).1).mpr ?_
    norm_num [TokenBucket.init, TokenBucket.refill]

/-! ## Lemmas: escalation -/

theorem noDecayGaps_cons_cons {a b : Int} {l : List Int}
    (h : noDecayGaps (a :: b :: l) = true) :
    b - a ≤ VIOLATION_DECAY_TIME ∧ noDecayGaps (b :: l) = true := by
  have h' : (if b - a ≤ VIOLATION_DECAY_TIME then noDecayGaps (b :: l) else false)
      = true := h
  by_cases hc : b - a ≤ VIOLATION_DECAY_TIME
  · rw [if_pos hc] at h'
    exact ⟨hc, h'⟩
  · rw [if_neg hc] at h'
    exact absurd h' (by simp)

theorem levelOf_mono {j k : Nat} (h : j ≤ k) : levelOf j ≤ levelOf k := by
  simp only [levelOf, THRESHOLD_BAN, THRESHOLD_DISCONNECT, THRESHOLD_FREEZE,
    THRESHOLD_WARNING, LEVEL_BAN, LEVEL_DISCONNECT, LEVEL_FREEZE, LEVEL_WARNING,
    LEVEL_NONE]
  split_ifs <;> omega

theorem levelOf_eq_ban_iff (k : Nat) : levelOf k = LEVEL_BAN ↔ THRESHOLD_BAN ≤ k := by
  simp only [levelOf, THRESHOLD_BAN, THRESHOLD_DISCONNECT, THRESHOLD_FREEZE,
    THRESHOLD_WARNING, LEVEL_BAN, LEVEL_DISCONNECT, LEVEL_FREEZE, LEVEL_WARNING,
    LEVEL_NONE]
  split_ifs <;> simp_all

theorem levelOf_lt_warning {v : Nat} (h : v < THRESHOLD_WARNING) :
    levelOf v = LEVEL_NONE := by
  simp only [THRESHOLD_WARNING] at h
  simp only [levelOf, THRESHOLD_BAN, THRESHOLD_DISCONNECT, THRESHOLD_FREEZE,
    THRESHOLD_WARNING]
  rw [if_neg (by omega), if_neg (by omega), if_neg (by omega), if_neg (by omega)]

theorem addViolation_no_gap (st : RLState) (now : Int)
    (hgap : now - st.lastViolation ≤ VIOLATION_DECAY_TIME)
    (hlvl : st.escalationLevel = levelOf st.violations) :
    (st.addViolation now).violations = st.violations + 1 ∧
    (st.addViolation now).escalationLevel = levelOf (st.violations + 1) ∧
    (st.addViolation now).lastViolation = now := by
  have hd : ¬(now - st.lastViolation > VIOLATION_DECAY_TIME) := not_lt.mpr hgap
  simp only [RLState.addViolation, if_neg hd]
  refine ⟨?_, ?_, ?_⟩
  · split_ifs <;> rfl
  · split_ifs with h1 h2 h3 h4
    · simp [levelOf, h1]
    · simp [levelOf, h1, h2]
    · simp [levelOf, h1, h2, h3]
    · simp [levelOf, h1, h2, h3, h4]
    · have h5 : st.violations + 1 < THRESHOLD_WARNING := Nat.lt_of_not_le h4
      rw [hlvl, levelOf_lt_warning (Nat.lt_of_succ_lt h5), levelOf_lt_warning h5]
  · split_ifs <;> rfl

theorem addViolation_from_init (t0 now : Int) :
    ((RLState.init t0).addViolation now).violations = 1 ∧
    ((RLState.init t0).addViolation now).escalationLevel = levelOf 1 ∧
    ((RLState.init t0).addViolation now).lastViolation = now := by
  simp only [RLState.init, RLState.addViolation, THRESHOLD_BAN,
    THRESHOLD_DISCONNECT, THRESHOLD_FREEZE, THRESHOLD_WARNING]
  split_ifs <;> simp_all <;> decide

theorem runAddViolations_from (ts : List Int) :
    ∀ st : RLState, st.escalationLevel = levelOf st.violations →
      noDecayGaps (st.lastViolation :: ts) = true →
      ∀ k, k ≤ ts.length →
        (runAddViolations st (ts.take k)).violations = st.violations + k ∧
        (runAddViolations st (ts.take k)).escalationLevel =
          levelOf (st.violations + k) := by
  induction ts with
  | nil =>
      intro st hlvl _ k hk
      have hk0 : k = 0 := Nat.le_zero.mp hk
      subst hk0
      simpa [runAddViolations] using hlvl
  | cons t rest ih =>
      intro st hlvl hgaps k hk
      obtain ⟨hgap, hrest⟩ := noDecayGaps_cons_cons hgaps
      cases k with
      | zero => simpa [runAddViolations] using hlvl
      | succ k' =>
          obtain ⟨hv, hl, hlast⟩ := addViolation_no_gap st t hgap hlvl
          have hlvl' : (st.addViolation t).escalationLevel =
              levelOf (st.addViolation t).violations := by rw [hl, hv]
          have hgaps' : noDecayGaps ((st.addViolation t).lastViolation :: rest) = true := by
            rw [hlast]; exact hrest
          have hk' : k' ≤ rest.length := Nat.succ_le_succ_iff.mp hk
          obtain ⟨hv2, hl2⟩ := ih (st.addViolation t) hlvl' hgaps' k' hk'
          constructor
          · show (runAddViolations (st.addViolation t) (rest.take k')).violations = _
            rw [hv2, hv]; omega
          · show (runAddViolations (st.addViolation t) (rest.take k')).escalationLevel = _
            rw [hl2, hv]
            congr 1
            omega

/-- C2: starting from a freshly created connection state, along any sequence
of consecutive rate-limit violations with no decay gaps (each within
`VIOLATION_DECAY_TIME` of the previous one) the cumulative count after `k`
violations is exactly `k`, the escalation level is the threshold cascade's
value at `k` and is non-decreasing along the sequence, and it equals `BAN`
exactly from the 50th cumulative violation on (so first at the 50th,
with `WARNING` from 5, `FREEZE` from 15 and `DISCONNECT` from 30). -/
theorem escalation_monotone_ban_at_50 (t0 : Int) (ts : List Int)
    (hgaps : noDecayGaps ts = true) :
    (∀ k, k ≤ ts.length →
      (runAddViolations (RLState.init t0) (ts.take k)).violations = k ∧
      (runAddViolations (RLState.init t0) (ts.take k)).escalationLevel = levelOf k) ∧
    (∀ j k, j ≤ k → k ≤ ts.length →
      (runAddViolations (RLState.init t0) (ts.take j)).escalationLevel ≤
        (runAddViolations (RLState.init t0) (ts.take k)).escalationLevel) ∧
    (∀ k, k ≤ ts.length →
      ((runAddViolations (RLState.init t0) (ts.take k)).escalationLevel = LEVEL_BAN ↔
        THRESHOLD_BAN ≤ k)) := by
  have main : ∀ k, k ≤ ts.length →
      (runAddViolations (RLState.init t0) (ts.take k)).violations = k ∧
      (runAddViolations (RLState.init t0) (ts.take k)).escalationLevel = levelOf k := by
    cases ts with
    | nil =>
        intro k hk
        have hk0 : k = 0 := Nat.le_zero.mp hk
        subst hk0
        constructor <;> rfl
    | cons t rest =>
        intro k hk
        cases k with
        | zero => constructor <;> rfl
        | succ k' =>
            obtain ⟨hv, hl, hlast⟩ := addViolation_from_init t0 t
            have hlvl' : ((RLState.init t0).addViolation t).escalationLevel =
                levelOf ((RLState.init t0).addViolation t).violations := by rw [hl, hv]
            have hgaps' :
                noDecayGaps (((RLState.init t0).addViolation t).lastViolation :: rest) =
                  true := by rw [hlast]; exact hgaps
            have hk' : k' ≤ rest.length := Nat.succ_le_succ_iff.mp hk
            obtain ⟨hv2, hl2⟩ :=
              runAddViolations_from rest ((RLState.init t0).addViolation t)
                hlvl' hgaps' k' hk'
            constructor
            · show (runAddViolations ((RLState.init t0).addViolation t)
                  (rest.take k')).violations = _
              rw [hv2, hv]; omega
            · show (runAddViolations ((RLState.init t0).addViolation t)
                  (rest.take k')).escalationLevel = _
              rw [hl2, hv]
              congr 1
              omega
  refine ⟨main, ?_, ?_⟩
  · intro j k hjk hk
    rw [(main j (le_trans hjk hk)).2, (main k hk).2]
    exact levelOf_mono hjk
  · intro k hk
    rw [(main k hk).2]
    exact levelOf_eq_ban_iff k

/-- Witness for `escalation_monotone_ban_at_50`: fifty violations in the same
millisecond reach `BAN` at the 50th and only `DISCONNECT` at the 49th. -/
theorem escalation_monotone_ban_at_50_witness :
    noDecayGaps (List.replicate 50 (0 : Int)) = true ∧
    (runAddViolations (RLState.init 0)
      ((List.replicate 50 (0 : Int)).take 50)).escalationLevel = LEVEL_BAN ∧
    (runAddViolations (RLState.init 0)
      ((List.replicate 50 (0 : Int)).take 49)).escalationLevel = LEVEL_DISCONNECT := by
  have h := escalation_monotone_ban_at_50 0 (List.replicate 50 (0 : Int)) (by decide)
  refine ⟨by decide, ?_, ?_⟩
  · exact (h.2.2 50 (by simp)).mpr (by decide)
  · rw [(h.1 49 (by simp)).2]
    decide

/-- C3 counterexample: from the reachable state with `violations = 15` and
`escalationLevel = DISCONNECT`, one decay step performed during `checkLimit`
drops the level directly to `WARNING` — two notches at once — refuting the
claim that a single decay step never lowers `escalationLevel` by two or more
levels. -/
theorem decayViolations_counterexample :
    (RLState.decayViolations
      { violations := 15, lastViolation := 0, escalationLevel := LEVEL_DISCONNECT,
        freezeUntil := 0, bannedUntil := 0, createdAt := 0, lastActivity := 0 }
      60001).violations = 14 ∧
    (RLState.decayViolations
      { violations := 15, lastViolation := 0, escalationLevel := LEVEL_DISCONNECT,
        freezeUntil := 0, bannedUntil := 0, createdAt := 0, lastActivity := 0 }
      60001).escalationLevel = LEVEL_WARNING ∧
    (RLState.decayViolations
      { violations := 15, lastViolation := 0, escalationLevel := LEVEL_DISCONNECT,
        freezeUntil := 0, bannedUntil := 0, createdAt := 0, lastActivity := 0 }
      60001).escalationLevel + 2 ≤ LEVEL_DISCONNECT := by
  refine ⟨?_, ?_, ?_⟩ <;> decide

/-- C3 amended: a single decay step reduces `violationCount` by at most 1 and
never increases it; when the decay window has elapsed it recomputes
`escalationLevel` as `NONE` if the new count is below the `WARNING` threshold
and `WARNING` if below the `FREEZE` threshold, leaving it unchanged otherwise —
so a single step can lower the level by more than one notch (from `DISCONNECT`
or `BAN` straight to `WARNING` or `NONE`). -/
theorem decayViolations_spec (st : RLState) (now : Int) :
    st.violations ≤ (st.decayViolations now).violations + 1 ∧
    (st.decayViolations now).violations ≤ st.violations ∧
    (st.decayViolations now).violations =
      (if now - st.lastViolation > VIOLATION_DECAY_TIME * 2 then st.violations - 1
       else st.violations) ∧
    (st.decayViolations now).escalationLevel =
      (if now - st.lastViolation > VIOLATION_DECAY_TIME * 2 then
         (if st.violations - 1 < THRESHOLD_WARNING then LEVEL_NONE
          else if st.violations - 1 < THRESHOLD_FREEZE then LEVEL_WARNING
          else st.escalationLevel)
       else st.escalationLevel) := by
  simp only [RLState.decayViolations]
  split_ifs <;> refine ⟨?_, ?_, rfl, rfl⟩ <;> (try dsimp only) <;> omega

/-- C4 counterexample: for a player holding 80 of a resource who attempts to
spend 100, the `suspicionScore` contribution of `validateResourceSpending` is
the flat 30, not `30 * min(1, (100-80)/100) = 6` as claimed (that expression
is the violation's `severity`, and even scaled it would be 6 ≠ 30). -/
theorem validateResourceSpending_counterexample :
    (validateResourceSpending 80 100).valid = false ∧
    (validateResourceSpending 80 100).suspicionScore = 30 ∧
    (validateResourceSpending 80 100).suspicionScore ≠
      30 * min 1 (((100 : ℚ) - 80) / 100) := by
  refine ⟨?_, ?_, ?_⟩ <;> norm_num [validateResourceSpending, RESOURCE_SYNC_TOLERANCE]

/-- C4 amended: a spend is rejected exactly when the requested amount exceeds
the current balance plus the 10-unit sync tolerance; a rejection carries one
`RESOURCE_SPENDING_VIOLATION` whose `severity` is `min(1,(amount-current)/100)`
(`= 0.2` for 100 vs 80) while the `suspicionScore` contribution is the flat 30. -/
theorem validateResourceSpending_spec (currentAmount amount : ℚ) :
    ((validateResourceSpending currentAmount amount).valid = false ↔
      amount > currentAmount + RESOURCE_SYNC_TOLERANCE) ∧
    (amount > currentAmount + RESOURCE_SYNC_TOLERANCE →
      (validateResourceSpending currentAmount amount).suspicionScore = 30 ∧
      (validateResourceSpending currentAmount amount).violations =
        [{ type := "RESOURCE_SPENDING_VIOLATION",
           severity := min 1 ((amount - currentAmount) / 100),
           attemptedSpend := amount, currentAmount := currentAmount,
           deficit := amount - currentAmount }]) ∧
    (¬ amount > currentAmount + RESOURCE_SYNC_TOLERANCE →
      validateResourceSpending currentAmount amount =
        { valid := true, violations := [], suspicionScore := 0 }) := by
  by_cases hc : amount > currentAmount + RESOURCE_SYNC_TOLERANCE
  · refine ⟨by simp [validateResourceSpending, hc], fun _ => ?_, fun hn => absurd hc hn⟩
    constructor <;> simp [validateResourceSpending, hc]
  · refine ⟨?_, fun hyes => absurd hyes hc, fun _ => ?_⟩ <;>
      simp [validateResourceSpending, hc]

/-- Witness for `validateResourceSpending_spec` at balance 80, spend 100. -/
theorem validateResourceSpending_spec_witness :
    ((validateResourceSpending 80 100).valid = false ↔
      (100 : ℚ) > 80 + RESOURCE_SYNC_TOLERANCE) ∧
    (validateResourceSpending 80 100).suspicionScore = 30 ∧
    (validateResourceSpending 80 100).violations =
      [{ type := "RESOURCE_SPENDING_VIOLATION",
         severity := min 1 (((100 : ℚ) - 80) / 100),
         attemptedSpend := 100, currentAmount := 80, deficit := 100 - 80 }] := by
  have h := validateResourceSpending_spec 80 100
  have hc : (100 : ℚ) > 80 + RESOURCE_SYNC_TOLERANCE := by
    norm_num [RESOURCE_SYNC_TOLERANCE]
  exact ⟨h.1, (h.2.1 hc).1, (h.2.1 hc).2⟩

/-- C6: `validatePacket` never propagates an exception thrown by a schema's
validation routine: the Lean model returns a plain result record for every
input by construction, and on a thrown exception the result is a validation
failure (`valid = false`) with a non-empty reason. -/
theorem validatePacket_catches {α : Type} (opcode : String) (e : String) :
    (validatePacket (α := α) opcode (Except.error e)).valid = false ∧
    ((validatePacket (α := α) opcode (Except.error e)).reason).isSome = true := by
  by_cases hv : isValidOpcode opcode <;> simp [validatePacket, hv]

/-- C7: for a player with no teleport-granting state active (no
click-teleport, not admin, not noclip/ghost), a displacement of exactly
`playerScale * 15` from the last recorded position does not produce a
`TELEPORTATION` violation, while a displacement of `playerScale * 15 + 1`
does. -/
theorem teleport_threshold_boundary (p : MovePlayer)
    (lastX lastY newX newY playerScale : ℝ)
    (hn : p.noclipMode = false) (hg : p.ghostMode = false)
    (ha : p.isAdmin = false) (ht : p.teleportClickMode = false) :
    (Real.sqrt ((newX - lastX) ^ 2 + (newY - lastY) ^ 2) =
        playerScale * TELEPORT_THRESHOLD_MULTIPLIER →
      ¬ teleportViolationFires p lastX lastY newX newY playerScale) ∧
    (Real.sqrt ((newX - lastX) ^ 2 + (newY - lastY) ^ 2) =
        playerScale * TELEPORT_THRESHOLD_MULTIPLIER + 1 →
      teleportViolationFires p lastX lastY newX newY playerScale) := by
  constructor
  · intro hd hv
    obtain ⟨_, hgt, _⟩ := hv
    rw [hd] at hgt
    exact lt_irrefl _ hgt
  · intro hd
    refine ⟨?_, ?_, ?_⟩
    · intro hbypass
      rcases hbypass with h | h | h <;> simp_all
    · rw [hd]
      linarith
    · intro hvalid
      rcases hvalid with h | h <;> simp_all

/-- Witness for `teleport_threshold_boundary` with the default
`playerScale = 35`: moving from (0,0) to (525,0) is exactly at the threshold
and raises no violation; moving to (526,0) raises one. -/
theorem teleport_threshold_boundary_witness :
    ¬ teleportViolationFires ⟨false, false, false, false⟩ 0 0 525 0 35 ∧
    teleportViolationFires ⟨false, false, false, false⟩ 0 0 526 0 35 := by
  have h1 := teleport_threshold_boundary ⟨false, false, false, false⟩
    0 0 525 0 35 rfl rfl rfl rfl
  have h2 := teleport_threshold_boundary ⟨false, false, false, false⟩
    0 0 526 0 35 rfl rfl rfl rfl
  constructor
  · apply h1.1
    rw [show ((525 : ℝ) - 0) ^ 2 + ((0 : ℝ) - 0) ^ 2 = 525 ^ 2 by norm_num]
    rw [Real.sqrt_sq (by norm_num : (0 : ℝ) ≤ 525)]
    norm_num [TELEPORT_THRESHOLD_MULTIPLIER]
  · apply h2.2
    rw [show ((526 : ℝ) - 0) ^ 2 + ((0 : ℝ) - 0) ^ 2 = 526 ^ 2 by norm_num]
    rw [Real.sqrt_sq (by norm_num : (0 : ℝ) ≤ 526)]
    norm_num [TELEPORT_THRESHOLD_MULTIPLIER]

/-! ## Lemmas: sanitizeString -/

theorem dropWhile_dropWhile {α : Type} (p : α → Bool) (l : List α) :
    (l.dropWhile p).dropWhile p = l.dropWhile p := by
  induction l with
  | nil => rfl
  | cons a t ih =>
      by_cases h : p a = true
      · rw [List.dropWhile_cons, if_pos h, ih]
      · rw [List.dropWhile_cons, if_neg h, List.dropWhile_cons, if_neg h]

theorem dropWhile_eq_self_of_prefix {α : Type} {p : α → Bool} {l l' : List α}
    (hl : l.dropWhile p = l) (hp : l' <+: l) : l'.dropWhile p = l' := by
  cases l' with
  | nil => rfl
  | cons a t =>
      cases l with
      | nil =>
          obtain ⟨r, hr⟩ := hp
          exact absurd hr (by simp)
      | cons b s =>
          obtain ⟨r, hr⟩ := hp
          have hab : a = b := by
            have := congrArg (List.head?) hr
            simpa using this
          subst hab
          have hpb : ¬ p a = true := by
            intro hb
            rw [List.dropWhile_cons, if_pos hb] at hl
            have h1 := congrArg List.length hl
            have h2 := (List.dropWhile_sublist (l := s) p).length_le
            simp at h1
            omega
          rw [List.dropWhile_cons, if_neg hpb]

theorem mem_jsTrim {c : Char} {l : List Char} (h : c ∈ jsTrim l) : c ∈ l := by
  unfold jsTrim at h
  rw [List.mem_reverse] at h
  have h1 : c ∈ (l.dropWhile isJsWhitespace).reverse :=
    List.Sublist.mem h (List.dropWhile_sublist _)
  rw [List.mem_reverse] at h1
  exact List.Sublist.mem h1 (List.dropWhile_sublist _)

theorem length_jsTrim_le (l : List Char) : (jsTrim l).length ≤ l.length := by
  unfold jsTrim
  rw [List.length_reverse]
  have h1 := (List.dropWhile_sublist (l := (l.dropWhile isJsWhitespace).reverse)
    isJsWhitespace).length_le
  have h2 := (List.dropWhile_sublist (l := l) isJsWhitespace).length_le
  rw [List.length_reverse] at h1
  omega

theorem dropWhile_jsTrim (l : List Char) :
    (jsTrim l).dropWhile isJsWhitespace = jsTrim l := by
  unfold jsTrim
  apply dropWhile_eq_self_of_prefix (l := l.dropWhile isJsWhitespace)
  · exact dropWhile_dropWhile _ _
  · have hsuf : ((l.dropWhile isJsWhitespace).reverse.dropWhile isJsWhitespace) <:+
        (l.dropWhile isJsWhitespace).reverse := List.dropWhile_suffix _
    have hpre := List.reverse_prefix.mpr hsuf
    rwa [List.reverse_reverse] at hpre

theorem jsTrim_eq_self {y : List Char} (h1 : y.dropWhile isJsWhitespace = y)
    (h2 : y.reverse.dropWhile isJsWhitespace = y.reverse) : jsTrim y = y := by
  unfold jsTrim
  rw [h1, h2, List.reverse_reverse]

theorem jsTrim_idem (l : List Char) : jsTrim (jsTrim l) = jsTrim l := by
  apply jsTrim_eq_self (dropWhile_jsTrim l)
  show (jsTrim l).reverse.dropWhile isJsWhitespace = (jsTrim l).reverse
  unfold jsTrim
  rw [List.reverse_reverse]
  exact dropWhile_dropWhile _ _

/-- C8: `sanitizeString` is idempotent — applying truncation,
HTML-significant-character stripping, control-character stripping and trimming
a second time to already-sanitized output returns it unchanged. -/
theorem sanitizeString_idempotent (l : List Char) (maxLength : Nat) :
    sanitizeString (sanitizeString l maxLength) maxLength =
      sanitizeString l maxLength := by
  have hw : ∀ c ∈ sanitizeString l maxLength,
      (!isHtmlChar c) = true ∧ (!isCtrlChar c) = true := by
    intro c hc
    unfold sanitizeString at hc
    have hc2 := mem_jsTrim hc
    rw [List.mem_filter] at hc2
    obtain ⟨hc3, hctrl⟩ := hc2
    rw [List.mem_filter] at hc3
    exact ⟨hc3.2, hctrl⟩
  have hlen : (sanitizeString l maxLength).length ≤ maxLength := by
    unfold sanitizeString
    have h0 := length_jsTrim_le (((l.take maxLength).filter
      (fun c => !isHtmlChar c)).filter (fun c => !isCtrlChar c))
    have h1 := List.length_filter_le (fun c => !isCtrlChar c)
      ((l.take maxLength).filter (fun c => !isHtmlChar c))
    have h2 := List.length_filter_le (fun c => !isHtmlChar c) (l.take maxLength)
    have h3 := List.length_take_le maxLength l
    omega
  show jsTrim ((((sanitizeString l maxLength).take maxLength).filter
      (fun c => !isHtmlChar c)).filter (fun c => !isCtrlChar c)) =
    sanitizeString l maxLength
  rw [List.take_of_length_le hlen,
    List.filter_eq_self.mpr (fun a ha => (hw a ha).1),
    List.filter_eq_self.mpr (fun a ha => (hw a ha).2)]
  exact jsTrim_idem _

/-! ## Lemmas: association-list maps -/

theorem mapGet_mapSet_self {α : Type} (m : List (String × α)) (k : String) (v : α) :
    mapGet (mapSet m k v) k = some v := by
  induction m with
  | nil => simp [mapSet, mapGet]
  | cons p rest ih =>
      obtain ⟨k', w⟩ := p
      by_cases h : k' = k
      · simp [mapSet, h, mapGet]
      · simp [mapSet, h, mapGet, ih]

theorem mapGet_mapSet_ne {α : Type} (m : List (String × α)) (k k' : String) (v : α)
    (h : k' ≠ k) : mapGet (mapSet m k v) k' = mapGet m k' := by
  induction m with
  | nil =>
      simp only [mapSet, mapGet]
      rw [if_neg (fun hh : k = k' => h hh.symm)]
  | cons p rest ih =>
      obtain ⟨k0, w⟩ := p
      by_cases h0 : k0 = k
      · subst h0
        simp only [mapSet, if_pos rfl, mapGet]
        rw [if_neg (fun hh : k0 = k' => h (hh ▸ rfl)), if_neg (fun hh : k0 = k' => h (hh ▸ rfl))]
      · simp only [mapSet, if_neg h0, mapGet]
        by_cases h1 : k0 = k'
        · simp [h1]
        · simp [h1, ih]

theorem mapGet_mapDelete_ne {α : Type} (m : List (String × α)) (k k' : String)
    (h : k' ≠ k) : mapGet (mapDelete m k) k' = mapGet m k' := by
  induction m with
  | nil => rfl
  | cons p rest ih =>
      obtain ⟨k0, w⟩ := p
      by_cases h0 : k0 = k
      · subst h0
        have hne : k0 ≠ k' := fun hh => h hh.symm
        simp [mapDelete, mapGet, hne]
      · simp only [mapDelete, if_neg h0, mapGet]
        by_cases h1 : k0 = k'
        · simp [h1]
        · simp [h1, ih]

theorem mapGet_eq_none_of_not_mem_keys {α : Type} {m : List (String × α)}
    {k : String} (h : k ∉ m.map Prod.fst) : mapGet m k = none := by
  induction m with
  | nil => rfl
  | cons p rest ih =>
      obtain ⟨k0, w⟩ := p
      simp only [List.map_cons, List.mem_cons] at h
      push_neg at h
      simp only [mapGet, if_neg (fun hh : k0 = k => h.1 hh.symm)]
      exact ih h.2

theorem keys_mapDelete_subset {α : Type} (m : List (String × α)) (k : String) :
    ∀ k' ∈ (mapDelete m k).map Prod.fst, k' ∈ m.map Prod.fst := by
  induction m with
  | nil => simp [mapDelete]
  | cons p rest ih =>
      obtain ⟨k0, w⟩ := p
      by_cases h0 : k0 = k
      · subst h0
        simp only [mapDelete, if_pos rfl, List.map_cons, List.mem_cons]
        intro k' hk'
        right
        exact hk'
      · simp only [mapDelete, if_neg h0, List.map_cons, List.mem_cons]
        intro k' hk'
        rcases hk' with h | h
        · left; exact h
        · right; exact ih k' h

theorem nodupKeys_mapDelete {α : Type} {m : List (String × α)} (k : String)
    (h : nodupKeys m) : nodupKeys (mapDelete m k) := by
  induction m with
  | nil => exact h
  | cons p rest ih =>
      obtain ⟨k0, w⟩ := p
      simp only [nodupKeys, List.map_cons, List.nodup_cons] at h
      obtain ⟨hk0, hrest⟩ := h
      by_cases h0 : k0 = k
      · subst h0
        simp only [mapDelete, if_pos rfl]
        exact hrest
      · simp only [mapDelete, if_neg h0, nodupKeys, List.map_cons, List.nodup_cons]
        exact ⟨fun hmem => hk0 (keys_mapDelete_subset rest k k0 hmem), ih hrest⟩

theorem mapGet_mapDelete_self {α : Type} {m : List (String × α)} (k : String)
    (h : nodupKeys m) : mapGet (mapDelete m k) k = none := by
  induction m with
  | nil => rfl
  | cons p rest ih =>
      obtain ⟨k0, w⟩ := p
      simp only [nodupKeys, List.map_cons, List.nodup_cons] at h
      obtain ⟨hk0, hrest⟩ := h
      by_cases h0 : k0 = k
      · subst h0
        simp only [mapDelete, if_pos rfl]
        exact mapGet_eq_none_of_not_mem_keys hk0
      · simp only [mapDelete, if_neg h0, mapGet, if_neg h0]
        exact ih hrest

theorem keys_mapSet_subset {α : Type} (m : List (String × α)) (k : String) (v : α) :
    ∀ k' ∈ (mapSet m k v).map Prod.fst, k' ∈ m.map Prod.fst ∨ k' = k := by
  induction m with
  | nil => simp [mapSet]
  | cons p rest ih =>
      obtain ⟨k0, w⟩ := p
      by_cases h0 : k0 = k
      · subst h0
        intro k' hk'
        simp only [mapSet, eq_self_iff_true, if_true, List.map_cons, List.mem_cons] at hk'
        rcases hk' with h | h
        · right; exact h
        · left
          simp only [List.map_cons, List.mem_cons]
          right
          exact h
      · intro k' hk'
        simp only [mapSet, if_neg h0, List.map_cons, List.mem_cons] at hk'
        rcases hk' with h | h
        · left
          simp only [List.map_cons, List.mem_cons]
          left
          exact h
        · rcases ih k' h with h2 | h2
          · left
            simp only [List.map_cons, List.mem_cons]
            right
            exact h2
          · right; exact h2

theorem nodupKeys_mapSet {α : Type} {m : List (String × α)} (k : String) (v : α)
    (h : nodupKeys m) : nodupKeys (mapSet m k v) := by
  induction m with
  | nil => simp [mapSet, nodupKeys]
  | cons p rest ih =>
      obtain ⟨k0, w⟩ := p
      simp only [nodupKeys, List.map_cons, List.nodup_cons] at h
      obtain ⟨hk0, hrest⟩ := h
      by_cases h0 : k0 = k
      · subst h0
        simp only [mapSet, eq_self_iff_true, if_true, nodupKeys, List.map_cons,
          List.nodup_cons]
        exact ⟨hk0, hrest⟩
      · simp only [mapSet, if_neg h0, nodupKeys, List.map_cons, List.nodup_cons]
        refine ⟨?_, ih hrest⟩
        intro hmem
        rcases keys_mapSet_subset rest k v k0 hmem with h2 | h2
        · exact hk0 h2
        · exact h0 h2

theorem mapGet_eq_some_of_mem {α : Type} {m : List (String × α)} {k : String}
    {v : α} (hnd : nodupKeys m) (hmem : (k, v) ∈ m) : mapGet m k = some v := by
  induction m with
  | nil => simp at hmem
  | cons p rest ih =>
      obtain ⟨k0, w⟩ := p
      simp only [nodupKeys, List.map_cons, List.nodup_cons] at hnd
      obtain ⟨hk0, hrest⟩ := hnd
      rcases List.mem_cons.mp hmem with h | h
      · rw [Prod.mk.injEq] at h
        obtain ⟨h1, h2⟩ := h
        subst h1
        subst h2
        simp [mapGet]
      · have hk : k0 ≠ k := by
          intro hh
          subst hh
          exact hk0 (List.mem_map.mpr ⟨(k0, v), h, rfl⟩)
        simp only [mapGet, if_neg hk]
        exact ih hrest h

theorem mem_of_mapGet_eq_some {α : Type} {m : List (String × α)} {k : String}
    {v : α} (h : mapGet m k = some v) : (k, v) ∈ m := by
  induction m with
  | nil => simp [mapGet] at h
  | cons p rest ih =>
      obtain ⟨k0, w⟩ := p
      by_cases h0 : k0 = k
      · subst h0
        simp only [mapGet, eq_self_iff_true, if_true, Option.some.injEq] at h
        subst h
        exact List.mem_cons_self _ _
      · simp only [mapGet, if_neg h0] at h
        exact List.mem_cons_of_mem _ (ih h)

theorem nodupKeys_foldl_mapDelete {α : Type} (ts : List String) :
    ∀ m : List (String × α), nodupKeys m →
      nodupKeys (ts.foldl (fun m t => mapDelete m t) m) := by
  induction ts with
  | nil => intro m h; exact h
  | cons t rest ih =>
      intro m h
      simp only [List.foldl_cons]
      exact ih _ (nodupKeys_mapDelete t h)

theorem mapGet_foldl_mapDelete {α : Type} (ts : List String) :
    ∀ m : List (String × α), nodupKeys m → ∀ k,
      mapGet (ts.foldl (fun m t => mapDelete m t) m) k =
        if k ∈ ts then none else mapGet m k := by
  induction ts with
  | nil => intro m _ k; simp
  | cons t rest ih =>
      intro m hnd k
      simp only [List.foldl_cons]
      rw [ih _ (nodupKeys_mapDelete t hnd) k]
      by_cases hk : k ∈ rest
      · simp [hk, List.mem_cons]
      · by_cases hkt : k = t
        · subst hkt
          simp [hk, mapGet_mapDelete_self k hnd, List.mem_cons]
        · simp [hk, hkt, List.mem_cons, mapGet_mapDelete_ne m t k hkt]

theorem mem_setDelete_iff {s : List String} {x y : String} :
    y ∈ setDelete s x ↔ y ∈ s ∧ y ≠ x := by
  simp [setDelete]

theorem mem_setAdd_iff {s : List String} {x y : String} :
    y ∈ setAdd s x ↔ y ∈ s ∨ y = x := by
  unfold setAdd
  by_cases h : x ∈ s
  · rw [if_pos h]
    constructor
    · exact Or.inl
    · rintro (hy | hy)
      · exact hy
      · subst hy; exact h
  · rw [if_neg h]
    simp [List.mem_append]

theorem mapGet_removeTokenFromUser_ne (m : List (String × List String))
    (userId token u : String) (h : u ≠ userId) :
    mapGet (removeTokenFromUser m userId token) u = mapGet m u := by
  unfold removeTokenFromUser
  cases hg : mapGet m userId with
  | none => rfl
  | some ts =>
      dsimp only
      by_cases he : setDelete ts token = []
      · rw [if_pos he]
        exact mapGet_mapDelete_ne m userId u h
      · rw [if_neg he]
        exact mapGet_mapSet_ne m userId u _ h

theorem mapGet_removeTokenFromUser_self (m : List (String × List String))
    (userId token : String) (hnd : nodupKeys m) :
    mapGet (removeTokenFromUser m userId token) userId =
      (match mapGet m userId with
       | none => none
       | some ts => if setDelete ts token = [] then none
                    else some (setDelete ts token)) := by
  unfold removeTokenFromUser
  cases hg : mapGet m userId with
  | none => exact hg
  | some ts =>
      dsimp only
      by_cases he : setDelete ts token = []
      · rw [if_pos he, if_pos he]
        exact mapGet_mapDelete_self userId hnd
      · rw [if_neg he, if_neg he]
        exact mapGet_mapSet_self m userId _

theorem nodupKeys_removeTokenFromUser (m : List (String × List String))
    (userId token : String) (hnd : nodupKeys m) :
    nodupKeys (removeTokenFromUser m userId token) := by
  unfold removeTokenFromUser
  cases mapGet m userId with
  | none => exact hnd
  | some ts =>
      dsimp only
      by_cases he : setDelete ts token = []
      · rw [if_pos he]
        exact nodupKeys_mapDelete userId hnd
      · rw [if_neg he]
        exact nodupKeys_mapSet userId _ hnd

/-- Removing one `{token, userId}` pair — deleting the token from `sessions`
and running the shared user-map tail — preserves the store invariant, provided
any session stored under that token belongs to that user. -/
theorem storeInv_removePair (store : SessionStore) (t u : String)
    (hinv : StoreInv store)
    (hu : ∀ s, mapGet store.sessions t = some s → s.userId = u) :
    StoreInv { store with
      sessions := mapDelete store.sessions t,
      userSessionMap := removeTokenFromUser store.userSessionMap u t } := by
  obtain ⟨hndS, hndU, hfwd, hbwd, hne⟩ := hinv
  unfold StoreInv
  dsimp only
  refine ⟨nodupKeys_mapDelete t hndS, nodupKeys_removeTokenFromUser _ u t hndU,
    ?_, ?_, ?_⟩
  · intro u' ts' hts' t' ht'
    by_cases huu : u' = u
    · subst huu
      rw [mapGet_removeTokenFromUser_self _ u' t hndU] at hts'
      cases hg : mapGet store.userSessionMap u' with
      | none =>
          rw [hg] at hts'
          exact absurd hts' (by simp)
      | some ts0 =>
          rw [hg] at hts'
          dsimp only at hts'
          by_cases he : setDelete ts0 t = []
          · rw [if_pos he] at hts'
            exact absurd hts' (by simp)
          · rw [if_neg he] at hts'
            have hts2 : ts' = setDelete ts0 t := (Option.some.inj hts').symm
            rw [hts2] at ht'
            obtain ⟨hmem0, hne0⟩ := mem_setDelete_iff.mp ht'
            obtain ⟨s, hs, hsu⟩ := hfwd u' ts0 hg t' hmem0
            refine ⟨s, ?_, hsu⟩
            rw [mapGet_mapDelete_ne _ t t' hne0]
            exact hs
    · rw [mapGet_removeTokenFromUser_ne _ u t u' huu] at hts'
      obtain ⟨s, hs, hsu⟩ := hfwd u' ts' hts' t' ht'
      have htt : t' ≠ t := by
        intro hh
        subst hh
        exact huu ((hsu.symm.trans (hu s hs)))
      refine ⟨s, ?_, hsu⟩
      rw [mapGet_mapDelete_ne _ t t' htt]
      exact hs
  · intro t' s' hs'
    have htt : t' ≠ t := by
      intro hh
      subst hh
      rw [mapGet_mapDelete_self t' hndS] at hs'
      exact absurd hs' (by simp)
    rw [mapGet_mapDelete_ne _ t t' htt] at hs'
    obtain ⟨ts0, hts0, hmem⟩ := hbwd t' s' hs'
    by_cases huu : s'.userId = u
    · rw [huu] at hts0 ⊢
      rw [mapGet_removeTokenFromUser_self _ u t hndU, hts0]
      dsimp only
      have hmem2 : t' ∈ setDelete ts0 t := mem_setDelete_iff.mpr ⟨hmem, htt⟩
      have hne2 : setDelete ts0 t ≠ [] := List.ne_nil_of_mem hmem2
      rw [if_neg hne2]
      exact ⟨setDelete ts0 t, rfl, hmem2⟩
    · rw [mapGet_removeTokenFromUser_ne _ u t _ huu]
      exact ⟨ts0, hts0, hmem⟩
  · intro u' ts' hts'
    by_cases huu : u' = u
    · subst huu
      rw [mapGet_removeTokenFromUser_self _ u' t hndU] at hts'
      cases hg : mapGet store.userSessionMap u' with
      | none =>
          rw [hg] at hts'
          exact absurd hts' (by simp)
      | some ts0 =>
          rw [hg] at hts'
          dsimp only at hts'
          by_cases he : setDelete ts0 t = []
          · rw [if_pos he] at hts'
            exact absurd hts' (by simp)
          · rw [if_neg he] at hts'
            have hts2 : ts' = setDelete ts0 t := (Option.some.inj hts').symm
            rw [hts2]
            exact he
    · rw [mapGet_removeTokenFromUser_ne _ u t u' huu] at hts'
      exact hne u' ts' hts'

/-- Adding a fresh token for a user preserves the invariant (`ts0` is the
user's current token set, `[]` when the user has no entry yet). -/
theorem storeInv_addPair (store : SessionStore) (userId token : String)
    (session : Session) (hses : session.userId = userId)
    (hinv : StoreInv store) (hfresh : mapGet store.sessions token = none)
    (ts0 : List String)
    (hts0 : mapGet store.userSessionMap userId = some ts0 ∨
      (mapGet store.userSessionMap userId = none ∧ ts0 = [])) :
    StoreInv { store with
      sessions := mapSet store.sessions token session,
      userSessionMap := mapSet store.userSessionMap userId (setAdd ts0 token) } := by
  obtain ⟨hndS, hndU, hfwd, hbwd, hne⟩ := hinv
  unfold StoreInv
  dsimp only
  refine ⟨nodupKeys_mapSet token session hndS, nodupKeys_mapSet userId _ hndU,
    ?_, ?_, ?_⟩
  · intro u' ts' hts' t' ht'
    by_cases huu : u' = userId
    · subst huu
      rw [mapGet_mapSet_self] at hts'
      have hts2 : ts' = setAdd ts0 token := (Option.some.inj hts').symm
      rw [hts2] at ht'
      rcases mem_setAdd_iff.mp ht' with hmem | hmem
      · rcases hts0 with hg | ⟨hg, hempty⟩
        · obtain ⟨s, hs, hsu⟩ := hfwd u' ts0 hg t' hmem
          have htt : t' ≠ token := by
            intro hh
            rw [hh, hfresh] at hs
            exact absurd hs (by simp)
          refine ⟨s, ?_, hsu⟩
          rw [mapGet_mapSet_ne _ token t' _ htt]
          exact hs
        · rw [hempty] at hmem
          exact absurd hmem (by simp)
      · subst hmem
        exact ⟨session, mapGet_mapSet_self _ _ _, hses⟩
    · rw [mapGet_mapSet_ne _ userId u' _ huu] at hts'
      obtain ⟨s, hs, hsu⟩ := hfwd u' ts' hts' t' ht'
      have htt : t' ≠ token := by
        intro hh
        rw [hh, hfresh] at hs
        exact absurd hs (by simp)
      refine ⟨s, ?_, hsu⟩
      rw [mapGet_mapSet_ne _ token t' _ htt]
      exact hs
  · intro t' s' hs'
    by_cases htt : t' = token
    · rw [htt] at hs' ⊢
      rw [mapGet_mapSet_self] at hs'
      have hs2 : s' = session := (Option.some.inj hs').symm
      rw [hs2, hses]
      exact ⟨setAdd ts0 token, mapGet_mapSet_self _ _ _,
        mem_setAdd_iff.mpr (Or.inr rfl)⟩
    · rw [mapGet_mapSet_ne _ token t' _ htt] at hs'
      obtain ⟨ts1, hts1, hmem⟩ := hbwd t' s' hs'
      by_cases huu : s'.userId = userId
      · rw [huu] at hts1 ⊢
        have hts0' : ts1 = ts0 := by
          rcases hts0 with hg | ⟨hg, _⟩
          · rw [hts1] at hg
            exact Option.some.inj hg
          · rw [hts1] at hg
            exact absurd hg (by simp)
        rw [mapGet_mapSet_self]
        exact ⟨setAdd ts0 token, rfl,
          mem_setAdd_iff.mpr (Or.inl (hts0' ▸ hmem))⟩
      · rw [mapGet_mapSet_ne _ userId _ _ huu]
        exact ⟨ts1, hts1, hmem⟩
  · intro u' ts' hts'
    by_cases huu : u' = userId
    · subst huu
      rw [mapGet_mapSet_self] at hts'
      have hts2 : ts' = setAdd ts0 token := (Option.some.inj hts').symm
      rw [hts2]
      exact List.ne_nil_of_mem (mem_setAdd_iff.mpr (Or.inr rfl))
    · rw [mapGet_mapSet_ne _ userId u' _ huu] at hts'
      exact hne u' ts' hts'

theorem storeInv_createSession (store : SessionStore) (userId token : String)
    (now : Int) (hinv : StoreInv store)
    (hfresh : mapGet store.sessions token = none) :
    StoreInv (store.createSession userId token now).2 := by
  unfold SessionStore.createSession
  by_cases hid : userId = ""
  · rw [if_pos hid]
    exact hinv
  · rw [if_neg hid]
    cases hg : mapGet store.userSessionMap userId with
    | none =>
        dsimp only
        exact storeInv_addPair store userId token _ rfl hinv hfresh []
          (Or.inr ⟨hg, rfl⟩)
    | some ts =>
        dsimp only
        exact storeInv_addPair store userId token _ rfl hinv hfresh ts (Or.inl hg)

theorem storeInv_invalidateSession (store : SessionStore) (token : String)
    (hinv : StoreInv store) : StoreInv (store.invalidateSession token).2 := by
  unfold SessionStore.invalidateSession
  by_cases ht : token = ""
  · rw [if_pos ht]
    exact hinv
  · rw [if_neg ht]
    cases hg : mapGet store.sessions token with
    | none => exact hinv
    | some session =>
        dsimp only
        refine storeInv_removePair store token session.userId hinv ?_
        intro s hs
        rw [hg] at hs
        exact congrArg Session.userId (Option.some.inj hs) |>.symm

theorem storeInv_invalidateUserSessions (store : SessionStore) (userId : String)
    (hinv : StoreInv store) : StoreInv (store.invalidateUserSessions userId).2 := by
  obtain ⟨hndS, hndU, hfwd, hbwd, hne⟩ := hinv
  unfold SessionStore.invalidateUserSessions
  by_cases hid : userId = ""
  · rw [if_pos hid]
    exact ⟨hndS, hndU, hfwd, hbwd, hne⟩
  · rw [if_neg hid]
    cases hg : mapGet store.userSessionMap userId with
    | none => exact ⟨hndS, hndU, hfwd, hbwd, hne⟩
    | some ts =>
        dsimp only
        by_cases hts : ts = []
        · rw [if_pos hts]
          exact ⟨hndS, hndU, hfwd, hbwd, hne⟩
        · rw [if_neg hts]
          unfold StoreInv
          dsimp only
          refine ⟨nodupKeys_foldl_mapDelete ts _ hndS,
            nodupKeys_mapDelete userId hndU, ?_, ?_, ?_⟩
          · intro u' ts' hts' t' ht'
            have huu : u' ≠ userId := by
              intro hh
              rw [hh] at hts'
              rw [mapGet_mapDelete_self userId hndU] at hts'
              exact absurd hts' (by simp)
            rw [mapGet_mapDelete_ne _ userId u' huu] at hts'
            obtain ⟨s, hs, hsu⟩ := hfwd u' ts' hts' t' ht'
            have htmem : t' ∉ ts := by
              intro hmem
              obtain ⟨s2, hs2, hsu2⟩ := hfwd userId ts hg t' hmem
              rw [hs] at hs2
              have hss : s = s2 := Option.some.inj hs2
              have heq : s.userId = userId := by rw [hss]; exact hsu2
              exact huu (hsu.symm.trans heq)
            refine ⟨s, ?_, hsu⟩
            rw [mapGet_foldl_mapDelete ts _ hndS t', if_neg htmem]
            exact hs
          · intro t' s' hs'
            rw [mapGet_foldl_mapDelete ts _ hndS t'] at hs'
            by_cases htm : t' ∈ ts
            · rw [if_pos htm] at hs'
              exact absurd hs' (by simp)
            · rw [if_neg htm] at hs'
              obtain ⟨ts1, hts1, hmem⟩ := hbwd t' s' hs'
              have huu : s'.userId ≠ userId := by
                intro hh
                rw [hh, hg] at hts1
                have : ts1 = ts := (Option.some.inj hts1).symm
                rw [this] at hmem
                exact htm hmem
              rw [mapGet_mapDelete_ne _ userId _ huu]
              exact ⟨ts1, hts1, hmem⟩
          · intro u' ts' hts'
            have huu : u' ≠ userId := by
              intro hh
              rw [hh] at hts'
              rw [mapGet_mapDelete_self userId hndU] at hts'
              exact absurd hts' (by simp)
            rw [mapGet_mapDelete_ne _ userId u' huu] at hts'
            exact hne u' ts' hts'

theorem storeInv_cleanup_fold (ps : List (String × String)) :
    ∀ store : SessionStore, StoreInv store →
      (∀ p ∈ ps, ∀ s, mapGet store.sessions p.1 = some s → s.userId = p.2) →
      StoreInv (ps.foldl cleanupStep store) := by
  induction ps with
  | nil =>
      intro store hinv _
      exact hinv
  | cons p rest ih =>
      obtain ⟨t, u⟩ := p
      intro store hinv hp
      simp only [List.foldl_cons]
      have hstep : StoreInv (cleanupStep store (t, u)) :=
        storeInv_removePair store t u hinv
          (fun s hs => hp (t, u) (List.mem_cons_self _ _) s hs)
      apply ih _ hstep
      intro q hq s hs
      have hsess : (cleanupStep store (t, u)).sessions = mapDelete store.sessions t := rfl
      rw [hsess] at hs
      have hqt : q.1 ≠ t := by
        intro hh
        rw [hh] at hs
        rw [mapGet_mapDelete_self t hinv.1] at hs
        exact absurd hs (by simp)
      rw [mapGet_mapDelete_ne _ t q.1 hqt] at hs
      exact hp q (List.mem_cons_of_mem _ hq) s hs

theorem storeInv_cleanupExpiredSessions (store : SessionStore) (now : Int)
    (hinv : StoreInv store) : StoreInv (store.cleanupExpiredSessions now).2 := by
  unfold SessionStore.cleanupExpiredSessions
  dsimp only
  apply storeInv_cleanup_fold _ store hinv
  intro p hp s hs
  rw [List.mem_map] at hp
  obtain ⟨q, hq, hpq⟩ := hp
  obtain ⟨qt, qs⟩ := q
  rw [List.mem_filter] at hq
  obtain ⟨hqmem, _⟩ := hq
  have hget : mapGet store.sessions qt = some qs :=
    mapGet_eq_some_of_mem hinv.1 hqmem
  have hp1 : p.1 = qt := by rw [← hpq]
  have hp2 : p.2 = qs.userId := by rw [← hpq]
  rw [hp1, hget] at hs
  rw [hp2]
  exact congrArg Session.userId (Option.some.inj hs) |>.symm

/-- C10: the session store's two maps stay bidirectionally consistent — every
token listed under a user resolves to a session with that `userId`, every
stored session's token is listed under its user, and no user entry holds an
empty token set (with both maps keeping distinct keys) — and this invariant is
preserved by `createSession` (for a fresh `crypto.randomUUID()` token),
`invalidateSession`, `invalidateUserSessions` and `cleanupExpiredSessions`. -/
theorem sessionStore_invariant_preserved (store : SessionStore)
    (hinv : StoreInv store) :
    (∀ userId token now, mapGet store.sessions token = none →
      StoreInv (store.createSession userId token now).2) ∧
    (∀ token, StoreInv (store.invalidateSession token).2) ∧
    (∀ userId, StoreInv (store.invalidateUserSessions userId).2) ∧
    (∀ now, StoreInv (store.cleanupExpiredSessions now).2) :=
  ⟨fun userId token now hfresh => storeInv_createSession store userId token now hinv hfresh,
   fun token => storeInv_invalidateSession store token hinv,
   fun userId => storeInv_invalidateUserSessions store userId hinv,
   fun now => storeInv_cleanupExpiredSessions store now hinv⟩

/-- Witness for `sessionStore_invariant_preserved` on the default-constructed
empty store with a concrete user and token. -/
theorem sessionStore_invariant_preserved_witness :
    StoreInv ((SessionStore.empty.createSession "u" "t" 0).2) ∧
    StoreInv ((SessionStore.empty.invalidateSession "t").2) ∧
    StoreInv ((SessionStore.empty.invalidateUserSessions "u").2) ∧
    StoreInv ((SessionStore.empty.cleanupExpiredSessions 0).2) := by
  have hempty : StoreInv SessionStore.empty := by
    refine ⟨?_, ?_, ?_, ?_, ?_⟩
    · simp [SessionStore.empty, nodupKeys]
    · simp [SessionStore.empty, nodupKeys]
    · intro u ts h
      simp [SessionStore.empty, mapGet] at h
    · intro t s h
      simp [SessionStore.empty, mapGet] at h
    · intro u ts h
      simp [SessionStore.empty, mapGet] at h
  have h := sessionStore_invariant_preserved SessionStore.empty hempty
  exact ⟨h.1 "u" "t" 0 rfl, h.2.1 "t", h.2.2.1 "u", h.2.2.2 0⟩

/-- C5 counterexample: a stored session validated exactly at
`lastActivity + idleTimeout` (idle time equal to, not below, the 30-minute
timeout) is reported valid by the code, contradicting the claimed
`now - lastActivity < idleTimeout` condition; the same holds at
`now = expiresAt` for the absolute bound. -/
theorem validateSession_boundary_counterexample :
    ((SessionStore.validateSession
      { sessions := [("t", { token := "t", userId := "u", createdAt := 0,
                             lastActivity := 0, expiresAt := 86400000 })],
        idleTimeout := 1800000, absoluteTimeout := 86400000,
        userSessionMap := [("u", ["t"])] } "t" 1800000).1.valid = true) ∧
    ¬ ((1800000 : Int) - 0 < 1800000) := by
  refine ⟨?_, by omega⟩
  decide

/-- C5 amended: a stored session is reported valid by `validateSession` iff
`now ≤ expiresAt` and `now - lastActivity ≤ idleTimeout` (the source
invalidates only on strict overshoot, so both boundary instants are still
valid); in particular with `idleTimeout = 30 min` it is valid at
`lastActivity + 29 min 59 s` and invalid at `lastActivity + 30 min 1 s`, and
similarly at the 24-hour absolute boundary. -/
theorem validateSession_valid_iff (store : SessionStore) (token : String)
    (now : Int) (s : Session) (htok : token ≠ "")
    (hs : mapGet store.sessions token = some s) :
    (store.validateSession token now).1.valid = true ↔
      (now ≤ s.expiresAt ∧ now - s.lastActivity ≤ store.idleTimeout) := by
  unfold SessionStore.validateSession
  rw [if_neg htok, hs]
  dsimp only
  by_cases h1 : now > s.expiresAt
  · rw [if_pos h1]
    constructor
    · intro h
      exact absurd h (by simp)
    · intro h
      exact absurd h.1 (not_le.mpr h1)
  · rw [if_neg h1]
    by_cases h2 : now - s.lastActivity > store.idleTimeout
    · rw [if_pos h2]
      constructor
      · intro h
        exact absurd h (by simp)
      · intro h
        exact absurd h.2 (not_le.mpr h2)
    · rw [if_neg h2]
      exact ⟨fun _ => ⟨not_lt.mp h1, not_lt.mp h2⟩, fun _ => rfl⟩

/-- Witness for `validateSession_valid_iff` at `lastActivity + 29 min 59 s`
on a session with the default timeouts. -/
theorem validateSession_valid_iff_witness :
    (SessionStore.validateSession
      { sessions := [("t", { token := "t", userId := "u", createdAt := 0,
                             lastActivity := 0, expiresAt := 86400000 })],
        idleTimeout := 1800000, absoluteTimeout := 86400000,
        userSessionMap := [("u", ["t"])] } "t" 1799000).1.valid = true ↔
      ((1799000 : Int) ≤ 86400000 ∧ (1799000 : Int) - 0 ≤ 1800000) := by
  exact validateSession_valid_iff _ "t" 1799000
    { token := "t", userId := "u", createdAt := 0, lastActivity := 0,
      expiresAt := 86400000 } (by decide) (by decide)

/-- C9: when `validateSession` reports a session valid it leaves the store —
and hence the session's `lastActivity`, `expiresAt`, `createdAt`, `userId` —
completely unchanged; only `refreshSession` updates `lastActivity`, and it
does so exactly when the session still passes both the absolute-expiry and
idle-expiry checks at call time (otherwise it deletes the session and updates
nothing). -/
theorem validateSession_refreshSession_frame (store : SessionStore)
    (token : String) (now : Int) :
    ((store.validateSession token now).1.valid = true →
      (store.validateSession token now).2 = store) ∧
    (∀ s, token ≠ "" → mapGet store.sessions token = some s →
      nodupKeys store.sessions →
      (now ≤ s.expiresAt ∧ now - s.lastActivity ≤ store.idleTimeout →
        (store.refreshSession token now).1.success = true ∧
        (store.refreshSession token now).2.sessions =
          mapSet store.sessions token { s with lastActivity := now } ∧
        (store.refreshSession token now).2.userSessionMap =
          store.userSessionMap) ∧
      (¬ (now ≤ s.expiresAt ∧ now - s.lastActivity ≤ store.idleTimeout) →
        (store.refreshSession token now).1.success = false ∧
        mapGet (store.refreshSession token now).2.sessions token = none)) := by
  constructor
  · unfold SessionStore.validateSession
    by_cases htok : token = ""
    · rw [if_pos htok]
      intro _
      rfl
    · rw [if_neg htok]
      cases hs : mapGet store.sessions token with
      | none =>
          dsimp only
          intro _
          rfl
      | some s =>
          dsimp only
          by_cases h1 : now > s.expiresAt
          · rw [if_pos h1]
            intro h
            exact absurd h (by simp)
          · rw [if_neg h1]
            by_cases h2 : now - s.lastActivity > store.idleTimeout
            · rw [if_pos h2]
              intro h
              exact absurd h (by simp)
            · rw [if_neg h2]
              intro _
              rfl
  · intro s htok hs hnd
    have hinv : (store.invalidateSession token).2.sessions =
        mapDelete store.sessions token := by
      unfold SessionStore.invalidateSession
      rw [if_neg htok, hs]
    unfold SessionStore.refreshSession
    rw [if_neg htok, hs]
    dsimp only
    constructor
    · rintro ⟨ha, hb⟩
      rw [if_neg (not_lt.mpr ha), if_neg (not_lt.mpr hb)]
      exact ⟨rfl, rfl, rfl⟩
    · intro hcon
      by_cases h1 : now > s.expiresAt
      · rw [if_pos h1]
        refine ⟨rfl, ?_⟩
        dsimp only
        rw [hinv]
        exact mapGet_mapDelete_self token hnd
      · by_cases h2 : now - s.lastActivity > store.idleTimeout
        · rw [if_neg h1, if_pos h2]
          refine ⟨rfl, ?_⟩
          dsimp only
          rw [hinv]
          exact mapGet_mapDelete_self token hnd
        · exact absurd ⟨not_lt.mp h1, not_lt.mp h2⟩ hcon

/-- Witness for `validateSession_refreshSession_frame` on a one-session store
validated and refreshed 29 min 59 s after `lastActivity`. -/
theorem validateSession_refreshSession_frame_witness :
    ((SessionStore.validateSession
      { sessions := [("t", { token := "t", userId := "u", createdAt := 0,
                             lastActivity := 0, expiresAt := 86400000 })],
        idleTimeout := 1800000, absoluteTimeout := 86400000,
        userSessionMap := [("u", ["t"])] } "t" 1799000).2 =
      { sessions := [("t", { token := "t", userId := "u", createdAt := 0,
                             lastActivity := 0, expiresAt := 86400000 })],
        idleTimeout := 1800000, absoluteTimeout := 86400000,
        userSessionMap := [("u", ["t"])] }) ∧
    (SessionStore.refreshSession
      { sessions := [("t", { token := "t", userId := "u", createdAt := 0,
                             lastActivity := 0, expiresAt := 86400000 })],
        idleTimeout := 1800000, absoluteTimeout := 86400000,
        userSessionMap := [("u", ["t"])] } "t" 1799000).1.success = true := by
  have h := validateSession_refreshSession_frame
    { sessions := [("t", { token := "t", userId := "u", createdAt := 0,
                           lastActivity := 0, expiresAt := 86400000 })],
      idleTimeout := 1800000, absoluteTimeout := 86400000,
      userSessionMap := [("u", ["t"])] } "t" 1799000
  constructor
  · exact h.1 (by decide)
  · exact ((h.2 { token := "t", userId := "u", createdAt := 0,
                  lastActivity := 0, expiresAt := 86400000 } (by decide)
      (by decide) (by simp [nodupKeys])).1 (by decide)).1
